import Mathlib

/-!
Verification of the graph execution engine in app/engine/runner.py.

Shallow embedding notes:
- Python runtime values that can appear as condition operands or metadata
  entries are modelled by `Value` (the null object, integers, strings).
- `DataState` keeps the engine-visible projection of app/models.DataState:
  the engine reads `anomaly_count`, `iteration` and the `metadata` bag.
  The remaining pydantic fields (data, profile, anomalies, rules,
  applied_actions) hold container values that no condition in the claims
  touches; they are dropped from the projection.
- The pydantic metadata dict is modelled as an association list.
- A step that raises is modelled as a step returning `Except.error`.
- Wall-clock timestamps and durations in log entries and step events are
  not modelled (they carry no logical content for the claims).
- `run_graph` and `stream_graph` take explicit fuel because the Python
  while-loop can genuinely diverge; `Option.none` as the outer result
  means the fuel ran out.
- Python TypeError messages are abstracted to a fixed string; the engine
  never inspects exception text.
-/

namespace Runner

/-- Condition operand / metadata values: the Python null object, ints and
strings. -/
inductive Value where
  | vnone
  | vint (n : Int)
  | vstr (s : String)
deriving DecidableEq

/-- Python `a < b` on `Value`s: defined for int/int and str/str, a
TypeError (modelled as `Option.none`) otherwise, in particular whenever
the null object is involved. -/
def pyLtV : Value → Value → Option Bool
  | Value.vint a, Value.vint b => some (decide (a < b))
  | Value.vstr a, Value.vstr b => some (decide (a < b))
  | _, _ => Option.none

/-- Python `a > b` is `b < a` for these totally ordered types. -/
def pyGtV (a b : Value) : Option Bool := pyLtV b a

/-- Python `a <= b`: for int/int and str/str this is the negation of
`b < a`; TypeError otherwise. -/
def pyLeV : Value → Value → Option Bool
  | Value.vint a, Value.vint b => some (decide (a ≤ b))
  | Value.vstr a, Value.vstr b => some (!decide (b < a))
  | _, _ => Option.none

/-- Python `a >= b` is `b <= a`. -/
def pyGeV (a b : Value) : Option Bool := pyLeV b a

/-- Python `a == b` on this value universe: equal only when same type and
same payload; never raises. -/
def pyEqV (a b : Value) : Bool := decide (a = b)

/-- Engine-visible projection of app/models.DataState. -/
structure DataState where
  anomaly_count : Int := 0
  iteration : Int := 0
  metadata : List (String × Value) := []
deriving DecidableEq

/-- `metadata.get(k)` on the association-list model of the dict. -/
def mdGet (md : List (String × Value)) (k : String) : Option Value :=
  (md.find? (fun p => p.1 == k)).map (fun p => p.2)

/-- `metadata[k] = v` on the association-list model of the dict. -/
def mdSet (md : List (String × Value)) (k : String) (v : Value) :
    List (String × Value) :=
  match md with
  | [] => [(k, v)]
  | (k2, v2) :: rest =>
    if k2 = k then (k, v) :: rest else (k2, v2) :: mdSet rest k v

/-- `getattr(state, name)` restricted to the named fields the engine-visible
state exposes as comparable values (runner.py reads these two). -/
def DataState.getField (s : DataState) : String → Option Value
  | "anomaly_count" => some (Value.vint s.anomaly_count)
  | "iteration" => some (Value.vint s.iteration)
  | _ => Option.none

/-- The condition record of runner.py: cond_obj = lhs / op / rhs. -/
structure Cond where
  lhs : String
  op : String
  rhs : Value
deriving DecidableEq

/-- The left-operand resolution of eval_condition (runner.py line 22):
`getattr(state, lhs) if hasattr(state, lhs) else state.metadata.get(lhs)`;
a dict `.get` miss yields the null object. -/
def condLhsVal (s : DataState) (name : String) : Value :=
  match s.getField name with
  | some v => v
  | Option.none => (mdGet s.metadata name).getD Value.vnone

/-- eval_condition from runner.py lines 16-33.  The left operand resolves
first against named fields on the state, then falls back to
`metadata.get`, which yields the null object when the key is absent.
The operator chain is checked in source order; an unknown operator falls
through to `False`.  A comparison that is not defined for the operand
types is a TypeError, modelled as `Except.error`. -/
def eval_condition (c : Cond) (s : DataState) : Except String Bool :=
  let lhs_val : Value := condLhsVal s c.lhs
  let cmp : Option Bool :=
    if c.op = ">" then pyGtV lhs_val c.rhs
    else if c.op = "<" then pyLtV lhs_val c.rhs
    else if c.op = ">=" then pyGeV lhs_val c.rhs
    else if c.op = "<=" then pyLeV lhs_val c.rhs
    else if c.op = "==" then some (pyEqV lhs_val c.rhs)
    else some false
  match cmp with
  | some b => Except.ok b
  | Option.none => Except.error "TypeError: comparison not supported"

/-- A step: a named callable from state to state that may raise
(sync/async dispatch is semantically transparent and not modelled). -/
def Step := DataState → Except String DataState

/-- An edge of the graph json: a plain successor string, or a dict with a
condition object carrying a check plus a true and a false successor
(either may be null). -/
inductive Edge where
  | direct (next : String)
  | cond (check : Cond) (onTrue : Option String) (onFalse : Option String)

/-- The Graph class of runner.py: start_node, the edges mapping, and the
node_map registry. -/
structure Graph where
  start_node : Option String
  edges : String → Option Edge
  node_map : String → Option Step

/-- One batch-mode log entry (node name and anomaly_count snapshot; the
wall-clock start/end timestamps are not modelled). -/
structure LogEntry where
  node : String
  anomaly_count : Int
deriving DecidableEq

/-- A failure that propagates out of run_graph (batch mode re-raises;
nothing of the partial state or log survives, which the constructors
reflect by carrying only the message). -/
inductive RunErr where
  | stepExc (node : String) (msg : String)
  | condExc (msg : String)
  | boundTypeExc (msg : String)
deriving DecidableEq

/-- The next-node decision shared verbatim by both loops in runner.py
(lines 51-62 and 116-130): a plain string edge yields its successor, a
conditional edge evaluates its check against the post-step state and
picks the true/false successor, no edge yields null.  A raising
evaluation is surfaced as the raw message. -/
def edgeNext (g : Graph) (cur : String) (s2 : DataState) :
    Except String (Option String) :=
  match g.edges cur with
  | some (Edge.direct n) => Except.ok (some n)
  | some (Edge.cond chk t f2) =>
    match eval_condition chk s2 with
    | Except.error m => Except.error m
    | Except.ok true => Except.ok t
    | Except.ok false => Except.ok f2
  | Option.none => Except.ok Option.none

/-- The effective iteration bound: `state.metadata.get("max_iterations", 5)`
(runner.py lines 38 and 75, identical in both modes). -/
def effectiveBound (s : DataState) : Value :=
  (mdGet s.metadata "max_iterations").getD (Value.vint 5)

/-- The while-loop of run_graph (runner.py lines 39-66), with fuel.
Per iteration: a missing step breaks and returns the accumulated state
and log; a raising step propagates; otherwise a log entry is appended,
the edge is resolved (a raising condition propagates), and the loop
breaks once `state.iteration >= max_iters` (a TypeError in that
comparison also propagates). -/
def runLoop (g : Graph) (maxIters : Value) :
    Nat → Option String → DataState → List LogEntry →
    Option (Except RunErr (DataState × List LogEntry))
  | _, Option.none, s, log => some (Except.ok (s, log))
  | 0, some _, _, _ => Option.none
  | fuel + 1, some cur, s, log =>
    match g.node_map cur with
    | Option.none => some (Except.ok (s, log))
    | some f =>
      match f s with
      | Except.error msg => some (Except.error (RunErr.stepExc cur msg))
      | Except.ok s2 =>
        match edgeNext g cur s2 with
        | Except.error m => some (Except.error (RunErr.condExc m))
        | Except.ok nxt =>
          match pyGeV (Value.vint s2.iteration) maxIters with
          | Option.none =>
            some (Except.error
              (RunErr.boundTypeExc "TypeError: comparison not supported"))
          | some true =>
            some (Except.ok (s2, log ++ [⟨cur, s2.anomaly_count⟩]))
          | some false =>
            runLoop g maxIters fuel nxt s2 (log ++ [⟨cur, s2.anomaly_count⟩])

/-- run_graph (runner.py lines 35-67). -/
def run_graph (g : Graph) (s : DataState) (fuel : Nat) :
    Option (Except RunErr (DataState × List LogEntry)) :=
  runLoop g (effectiveBound s) fuel g.start_node s []

/-- A streaming event (runner.py stream_graph yields).  Durations are
wall-clock and not modelled; state snapshots keep the engine-visible
projection. -/
inductive Event where
  | start (startNode : Option String) (initialState : DataState)
  | step (node : String) (anomalyCount : Int) (snapshot : DataState)
  | error (node : Option String) (msg : String)
  | info (msg : String) (iteration : Int)
  | complete (finalState : DataState)
deriving DecidableEq

def Event.isComplete : Event → Bool
  | Event.complete _ => true
  | _ => false

def Event.isTerminal : Event → Bool
  | Event.error _ _ => true
  | Event.info _ _ => true
  | Event.complete _ => true
  | _ => false

/-- The while-loop of stream_graph (runner.py lines 85-137), with fuel.
Returns the events the loop body yields, the state at loop exit, and
`some msg` when the loop body raised an exception that is not caught
inside the generator (only the bound comparison at line 133 can do so:
it sits outside both try blocks, so a TypeError there propagates to the
consumer and aborts the generator).  All breaks exit normally. -/
def streamLoop (g : Graph) (maxIters : Value) :
    Nat → Option String → DataState →
    Option (List Event × DataState × Option String)
  | _, Option.none, s => some ([], s, Option.none)
  | 0, some _, _ => Option.none
  | fuel + 1, some cur, s =>
    match g.node_map cur with
    | Option.none =>
      some ([Event.error Option.none
              ("node " ++ cur ++ " not found in node_map")], s, Option.none)
    | some f =>
      match f s with
      | Except.error msg => some ([Event.error (some cur) msg], s, Option.none)
      | Except.ok s2 =>
        match edgeNext g cur s2 with
        | Except.error m =>
          some ([Event.step cur s2.anomaly_count s2,
                 Event.error Option.none ("condition eval error: " ++ m)],
                s2, Option.none)
        | Except.ok nxt =>
          match pyGeV (Value.vint s2.iteration) maxIters with
          | Option.none =>
            some ([Event.step cur s2.anomaly_count s2], s2,
                  some "TypeError: comparison not supported")
          | some true =>
            some ([Event.step cur s2.anomaly_count s2,
                   Event.info "Max iterations reached" s2.iteration],
                  s2, Option.none)
          | some false =>
            match streamLoop g maxIters fuel nxt s2 with
            | Option.none => Option.none
            | some (evs, fs, crash) =>
              some (Event.step cur s2.anomaly_count s2 :: evs, fs, crash)

/-- The full stream_graph generator body with an explicit bound: the
start event is yielded first, then the loop events; when the generator
body did not raise, the final complete event (with the state at loop
exit) is yielded after the loop — note that the loop breaks on error and
info events fall through to this yield (runner.py line 140). -/
def streamRun (g : Graph) (maxIters : Value) (s : DataState) (fuel : Nat) :
    Option (List Event × Option String) :=
  match streamLoop g maxIters fuel g.start_node s with
  | Option.none => Option.none
  | some (evs, fs, Option.none) =>
    some (Event.start g.start_node s :: (evs ++ [Event.complete fs]),
          Option.none)
  | some (evs, _, some msg) =>
    some (Event.start g.start_node s :: evs, some msg)

/-- stream_graph (runner.py lines 69-140): the produced event list plus
`some msg` when the generator aborted with an uncaught exception. -/
def stream_graph (g : Graph) (s : DataState) (fuel : Nat) :
    Option (List Event × Option String) :=
  streamRun g (effectiveBound s) s fuel

/-- The terminal-event invariant exactly as the specification states it:
the event sequence contains exactly one terminal event (error, info or
complete) and that terminal event is the last event (nothing follows
it). -/
def specTerminalInvariant (evs : List Event) : Bool :=
  ((evs.filter (fun e => e.isTerminal)).length == 1) &&
  (match evs.getLast? with
   | some e => e.isTerminal
   | Option.none => false)

/-- The event list ends with a complete event and contains no other
complete event. -/
def endsWithSingleComplete : List Event → Bool
  | [] => false
  | [e] => e.isComplete
  | e :: e2 :: rest => !e.isComplete && endsWithSingleComplete (e2 :: rest)

/-- The batch run terminates: some fuel suffices for run_graph to return
(either a result or a propagated failure). -/
def Terminates (g : Graph) (s : DataState) : Prop :=
  ∃ fuel r, run_graph g s fuel = some r

/-- A step that returns its input state unchanged (test double for the
no-op round-trip claim). -/
def noopStep : Step := fun st => Except.ok st

/-- A step that only increments the iteration counter (test double for
the bounded-termination claim). -/
def incStep : Step := fun st => Except.ok { st with iteration := st.iteration + 1 }

/-- A step that always raises (test double for failure propagation). -/
def boomStep : Step := fun _ => Except.error "boom"

/-- A one-node graph whose single no-op node loops back to itself through
a plain string edge. -/
def loopGraph : Graph where
  start_node := some "A"
  edges := fun k => if k = "A" then some (Edge.direct "A") else Option.none
  node_map := fun k => if k = "A" then some noopStep else Option.none

/-- A graph whose start node is absent from the registry. -/
def gMissing : Graph where
  start_node := some "A"
  edges := fun _ => Option.none
  node_map := fun _ => Option.none

/-- A graph with no start node. -/
def gNoStart : Graph where
  start_node := Option.none
  edges := fun _ => Option.none
  node_map := fun _ => Option.none

/-- A graph where node A increments and points to a node B that is
missing from the registry. -/
def gTrunc : Graph where
  start_node := some "A"
  edges := fun k => if k = "A" then some (Edge.direct "B") else Option.none
  node_map := fun k => if k = "A" then some incStep else Option.none

/-- A graph whose single node always raises. -/
def gBoom : Graph where
  start_node := some "A"
  edges := fun _ => Option.none
  node_map := fun _ => some boomStep

/-- A graph where every node is the pure iteration increment and every
node chains to A. -/
def gInc : Graph where
  start_node := some "A"
  edges := fun _ => some (Edge.direct "A")
  node_map := fun _ => some incStep

/-- The empty state: no anomalies, iteration 0, empty metadata. -/
def s0 : DataState := ⟨0, 0, []⟩

/-- Step A of the example scenario in the specification: x -= 1 on the
metadata bag (x is not a named field of DataState, so both the step and
the condition reach it through metadata) and iteration += 1. -/
def stepA : Step := fun st =>
  Except.ok { st with
    iteration := st.iteration + 1,
    metadata := mdSet st.metadata "x"
      (Value.vint (match mdGet st.metadata "x" with
                   | some (Value.vint n) => n - 1
                   | _ => -1)) }

/-- The example-scenario graph: start A, A -> B unconditionally, B loops
to A while x > 0 and terminates otherwise. -/
def gC8 : Graph where
  start_node := some "A"
  edges := fun k =>
    if k = "A" then some (Edge.direct "B")
    else if k = "B" then
      some (Edge.cond ⟨"x", ">", Value.vint 0⟩ (some "A") Option.none)
    else Option.none
  node_map := fun k =>
    if k = "A" then some stepA
    else if k = "B" then some noopStep
    else Option.none

/-- The example-scenario initial state: x = 2 in metadata, bound left to
its default of 5. -/
def sC8 : DataState := ⟨0, 0, [("x", Value.vint 2)]⟩

section Lemmas

theorem pyLt_vnone_left (v : Value) : pyLtV Value.vnone v = Option.none := by
  cases v <;> rfl

theorem pyLt_vnone_right (v : Value) : pyLtV v Value.vnone = Option.none := by
  cases v <;> rfl

theorem pyLe_vnone_left (v : Value) : pyLeV Value.vnone v = Option.none := by
  cases v <;> rfl

theorem pyLe_vnone_right (v : Value) : pyLeV v Value.vnone = Option.none := by
  cases v <;> rfl

end Lemmas

/-- C4: for every condition whose operator is not one of >, <, >=, <=, ==
and every state, eval_condition returns false and raises no failure. -/
theorem claim4 (c : Cond) (s : DataState)
    (h : c.op ∉ ([">", "<", ">=", "<=", "=="] : List String)) :
    eval_condition c s = Except.ok false := by
  simp only [List.mem_cons, List.not_mem_nil, or_false, not_or] at h
  obtain ⟨h1, h2, h3, h4, h5⟩ := h
  simp [eval_condition, h1, h2, h3, h4, h5]

theorem claim4_witness :
    eval_condition ⟨"x", "!=", Value.vint 0⟩ s0 = Except.ok false :=
  claim4 ⟨"x", "!=", Value.vint 0⟩ s0 (by decide)

/-- C3 counterexample: the name x is absent both from the named fields and
from the (empty) metadata bag, yet with operator == the evaluator does not
fail: it silently returns false (Python compares the null object with ==,
which never raises). -/
theorem claim3_cex :
    s0.getField "x" = Option.none ∧ mdGet s0.metadata "x" = Option.none ∧
    eval_condition ⟨"x", "==", Value.vint 0⟩ s0 = Except.ok false :=
  ⟨rfl, rfl, rfl⟩

/-- C3 amended: with a left operand absent from both the named fields and
the metadata bag, the operand resolves to the null object; the ordering
operators >, <, >=, <= then signal a condition-evaluation failure
(TypeError), but == silently succeeds, returning the result of comparing
the null object with the right operand (false unless the right operand is
itself the null literal). -/
theorem claim3_amended (name : String) (rhs : Value) (s : DataState)
    (hf : s.getField name = Option.none)
    (hm : mdGet s.metadata name = Option.none) :
    (∀ op, op ∈ ([">", "<", ">=", "<="] : List String) →
      eval_condition ⟨name, op, rhs⟩ s =
        Except.error "TypeError: comparison not supported")
    ∧ eval_condition ⟨name, "==", rhs⟩ s = Except.ok (pyEqV Value.vnone rhs) := by
  have hv : condLhsVal s name = Value.vnone := by
    simp [condLhsVal, hf, hm]
  constructor
  · intro op hop
    have hcases : op = ">" ∨ op = "<" ∨ op = ">=" ∨ op = "<=" := by
      simpa using hop
    rcases hcases with h | h | h | h <;> subst h <;>
      simp [eval_condition, hv, pyGtV, pyGeV, pyLt_vnone_left,
        pyLt_vnone_right, pyLe_vnone_left, pyLe_vnone_right]
  · simp [eval_condition, hv]

theorem claim3_witness :
    (∀ op, op ∈ ([">", "<", ">=", "<="] : List String) →
      eval_condition ⟨"x", op, Value.vint 0⟩ s0 =
        Except.error "TypeError: comparison not supported")
    ∧ eval_condition ⟨"x", "==", Value.vint 0⟩ s0 =
        Except.ok (pyEqV Value.vnone (Value.vint 0)) :=
  claim3_amended "x" (Value.vint 0) s0 rfl rfl

/-- C7: in batch mode, hitting a node whose step is missing from the
registry terminates the loop at once without failure, returning exactly
the state and log accumulated after the last successfully executed node;
concretely, in gTrunc the run executes A once and truncates at the
missing B, returning the post-A state and the one-entry log. -/
theorem claim7 :
    (∀ (g : Graph) (b : Value) (fuel : Nat) (cur : String) (s : DataState)
      (log : List LogEntry), g.node_map cur = Option.none →
      runLoop g b (fuel + 1) (some cur) s log = some (Except.ok (s, log)))
    ∧ run_graph gTrunc s0 5 =
        some (Except.ok (⟨0, 1, []⟩, [⟨"A", 0⟩])) := by
  constructor
  · intro g b fuel cur s log h
    simp [runLoop, h]
  · rfl

theorem claim7_witness :
    runLoop gTrunc (Value.vint 5) 3 (some "B") ⟨0, 1, []⟩ [⟨"A", 0⟩] =
      some (Except.ok (⟨0, 1, []⟩, [⟨"A", 0⟩])) :=
  claim7.1 gTrunc (Value.vint 5) 2 "B" ⟨0, 1, []⟩ [⟨"A", 0⟩] rfl

/-- C9: batch mode is fail-fast.  A step that raises propagates as a
stepExc carrying only the node and message (the error constructor carries
no state and no log, so no partial result is returned); a failing
condition evaluation propagates likewise as a condExc; a missing step is
the only truncating condition that still returns an ok result. -/
theorem claim9 (g : Graph) (b : Value) (fuel : Nat) (cur : String)
    (s : DataState) (log : List LogEntry) :
    (∀ f msg, g.node_map cur = some f → f s = Except.error msg →
      runLoop g b (fuel + 1) (some cur) s log =
        some (Except.error (RunErr.stepExc cur msg)))
    ∧ (∀ f s2 chk t fl m, g.node_map cur = some f → f s = Except.ok s2 →
        g.edges cur = some (Edge.cond chk t fl) →
        eval_condition chk s2 = Except.error m →
        runLoop g b (fuel + 1) (some cur) s log =
          some (Except.error (RunErr.condExc m)))
    ∧ (g.node_map cur = Option.none →
        runLoop g b (fuel + 1) (some cur) s log = some (Except.ok (s, log))) := by
  refine ⟨?_, ?_, ?_⟩
  · intro f msg hn hf
    simp [runLoop, hn, hf]
  · intro f s2 chk t fl m hn hf he hc
    simp [runLoop, edgeNext, hn, hf, he, hc]
  · intro h
    simp [runLoop, h]

theorem claim9_witness :
    runLoop gBoom (Value.vint 5) 1 (some "A") s0 [] =
      some (Except.error (RunErr.stepExc "A" "boom")) :=
  (claim9 gBoom (Value.vint 5) 0 "A" s0 []).1 boomStep "boom" rfl rfl

/-- C8 (amended run of the example scenario): the batch run executes
A,B,A,B — two full cycles, not three — and ends with x = 0 and
iteration = 2, terminating because x > 0 is already false when x reaches
0 after the second execution of A. -/
theorem claim8 :
    run_graph gC8 sC8 10 =
      some (Except.ok (⟨0, 2, [("x", Value.vint 0)]⟩,
        [⟨"A", 0⟩, ⟨"B", 0⟩, ⟨"A", 0⟩, ⟨"B", 0⟩])) := by
  rfl

/-- C8 counterexample: on the example scenario the run does not produce
the outcome the claim states (node sequence A,B,A,B,A,B with final x = -1
and iteration = 3). -/
theorem claim8_cex :
    run_graph gC8 sC8 10 ≠
      some (Except.ok (⟨0, 3, [("x", Value.vint (-1))]⟩,
        [⟨"A", 0⟩, ⟨"B", 0⟩, ⟨"A", 0⟩, ⟨"B", 0⟩, ⟨"A", 0⟩, ⟨"B", 0⟩])) := by
  intro h
  rw [show run_graph gC8 sC8 10 =
      some (Except.ok (⟨0, 2, [("x", Value.vint 0)]⟩,
        [⟨"A", 0⟩, ⟨"B", 0⟩, ⟨"A", 0⟩, ⟨"B", 0⟩])) from rfl] at h
  simp at h

/-- C10: every streaming run begins with a start event carrying the
initial node and the initial state; when the start node is absent the
streaming sequence is exactly start followed by complete with the
unchanged initial state, and the batch run returns the initial state with
an empty log. -/
theorem claim10 (g : Graph) (s : DataState) (fuel : Nat) :
    (∀ evs crash, stream_graph g s fuel = some (evs, crash) →
      evs.head? = some (Event.start g.start_node s))
    ∧ (g.start_node = Option.none →
        stream_graph g s fuel =
          some ([Event.start Option.none s, Event.complete s], Option.none)
        ∧ run_graph g s fuel = some (Except.ok (s, []))) := by
  constructor
  · intro evs crash h
    unfold stream_graph streamRun at h
    rcases hsl : streamLoop g (effectiveBound s) fuel g.start_node s with
      _ | ⟨evs0, fs, _ | msg⟩ <;> rw [hsl] at h <;> simp at h
    · rw [← h.1]
      rfl
    · rw [← h.1]
      rfl
  · intro h
    constructor
    · unfold stream_graph streamRun
      rw [h]
      cases fuel <;> rfl
    · unfold run_graph
      rw [h]
      cases fuel <;> rfl

theorem claim10_witness :
    stream_graph gNoStart s0 0 =
      some ([Event.start Option.none s0, Event.complete s0], Option.none)
    ∧ run_graph gNoStart s0 0 = some (Except.ok (s0, [])) :=
  (claim10 gNoStart s0 0).2 rfl

/-- C1 counterexample: a run whose start node is missing from the registry
emits start, then an error event, and then still emits a complete event
(the loop break falls through to the final yield in runner.py line 140),
so the sequence does not end at its terminal error event and contains two
events of terminal kind. -/
theorem claim1_cex :
    stream_graph gMissing s0 1 =
      some ([Event.start (some "A") s0,
             Event.error Option.none "node A not found in node_map",
             Event.complete s0], Option.none)
    ∧ specTerminalInvariant
        [Event.start (some "A") s0,
         Event.error Option.none "node A not found in node_map",
         Event.complete s0] = false :=
  ⟨rfl, rfl⟩

/-- With an integer bound the streaming loop body never raises (its only
uncaught raise site is the bound comparison) and never yields a complete
event (complete is yielded after the loop only). -/
theorem streamLoop_no_complete (g : Graph) (n : Int) :
    ∀ (fuel : Nat) (cur : Option String) (s : DataState) (evs : List Event)
      (fs : DataState) (crash : Option String),
      streamLoop g (Value.vint n) fuel cur s = some (evs, fs, crash) →
      crash = Option.none ∧ ∀ e ∈ evs, e.isComplete = false := by
  intro fuel
  induction fuel with
  | zero =>
    intro cur s evs fs crash h
    cases cur with
    | none =>
      simp only [streamLoop, Option.some.injEq, Prod.mk.injEq] at h
      obtain ⟨h1, h2, h3⟩ := h
      subst h1
      subst h3
      exact ⟨rfl, by simp⟩
    | some c =>
      simp only [streamLoop] at h
      cases h
  | succ k ih =>
    intro cur s evs fs crash h
    cases cur with
    | none =>
      simp only [streamLoop, Option.some.injEq, Prod.mk.injEq] at h
      obtain ⟨h1, h2, h3⟩ := h
      subst h1
      subst h3
      exact ⟨rfl, by simp⟩
    | some c =>
      simp only [streamLoop] at h
      split at h
      · simp only [Option.some.injEq, Prod.mk.injEq] at h
        obtain ⟨h1, h2, h3⟩ := h
        subst h1
        subst h3
        refine ⟨rfl, ?_⟩
        intro e he
        simp at he
        subst he
        rfl
      · split at h
        · simp only [Option.some.injEq, Prod.mk.injEq] at h
          obtain ⟨h1, h2, h3⟩ := h
          subst h1
          subst h3
          refine ⟨rfl, ?_⟩
          intro e he
          simp at he
          subst he
          rfl
        · split at h
          · simp only [Option.some.injEq, Prod.mk.injEq] at h
            obtain ⟨h1, h2, h3⟩ := h
            subst h1
            subst h3
            refine ⟨rfl, ?_⟩
            intro e he
            simp at he
            rcases he with he | he <;> subst he <;> rfl
          · rename_i s2 nxt hedge
            split at h
            · rename_i hgev
              simp [pyGeV, pyLeV] at hgev
            · simp only [Option.some.injEq, Prod.mk.injEq] at h
              obtain ⟨h1, h2, h3⟩ := h
              subst h1
              subst h3
              refine ⟨rfl, ?_⟩
              intro e he
              simp at he
              rcases he with he | he <;> subst he <;> rfl
            · split at h
              · cases h
              · rename_i evs2 fs2 crash2 hrec
                simp only [Option.some.injEq, Prod.mk.injEq] at h
                obtain ⟨h1, h2, h3⟩ := h
                subst h1
                subst h3
                obtain ⟨hc2, hnc2⟩ := ih _ _ _ _ _ hrec
                refine ⟨hc2, ?_⟩
                intro e he
                rcases List.mem_cons.mp he with he | he
                · subst he
                  rfl
                · exact hnc2 e he

/-- Appending a single complete event to a list free of complete events
yields a list that ends with its only complete event. -/
theorem isComplete_complete (fs : DataState) :
    (Event.complete fs).isComplete = true := rfl

theorem endsWithSingleComplete_append (l : List Event) (fs : DataState)
    (h : ∀ e ∈ l, e.isComplete = false) :
    endsWithSingleComplete (l ++ [Event.complete fs]) = true := by
  induction l with
  | nil => rfl
  | cons e rest ih =>
    have he : e.isComplete = false := h e (List.mem_cons_self e rest)
    have hrest : ∀ x ∈ rest, x.isComplete = false :=
      fun x hx => h x (List.mem_cons_of_mem e hx)
    cases rest with
    | nil =>
      simp [endsWithSingleComplete, he, isComplete_complete]
    | cons e2 r2 =>
      have h2 := ih hrest
      simp only [List.cons_append] at h2 ⊢
      simp [endsWithSingleComplete, he]
      simpa [List.cons_append] using h2

/-- C1 amended: whenever the effective bound is an integer (in particular
whenever max_iterations is absent or set to an integer), every streaming
run that terminates produces an event sequence that ends with exactly one
complete event and contains no other complete event; error and info
events do not terminate the sequence by themselves — the final complete
event still follows them — and the generator never aborts. -/
theorem claim1_amended (g : Graph) (s : DataState) (fuel : Nat) (n : Int)
    (hb : effectiveBound s = Value.vint n)
    (evs : List Event) (crash : Option String)
    (hr : stream_graph g s fuel = some (evs, crash)) :
    crash = Option.none ∧ endsWithSingleComplete evs = true := by
  unfold stream_graph streamRun at hr
  rw [hb] at hr
  rcases hsl : streamLoop g (Value.vint n) fuel g.start_node s with
    _ | ⟨evs0, fs, _ | msg⟩ <;> rw [hsl] at hr <;> simp at hr
  · obtain ⟨h1, h2⟩ := hr
    obtain ⟨-, hnc⟩ :=
      streamLoop_no_complete g n fuel g.start_node s evs0 fs Option.none hsl
    subst h1
    refine ⟨h2.symm, ?_⟩
    rw [show Event.start g.start_node s :: (evs0 ++ [Event.complete fs]) =
        (Event.start g.start_node s :: evs0) ++ [Event.complete fs] from rfl]
    apply endsWithSingleComplete_append
    intro e he
    rcases List.mem_cons.mp he with he | he
    · subst he
      rfl
    · exact hnc e he
  · obtain ⟨hc, -⟩ :=
      streamLoop_no_complete g n fuel g.start_node s evs0 fs (some msg) hsl
    cases hc

theorem claim1_witness :
    (Option.none : Option String) = Option.none ∧
    endsWithSingleComplete
      [Event.start Option.none s0, Event.complete s0] = true :=
  claim1_amended gNoStart s0 0 5 rfl
    [Event.start Option.none s0, Event.complete s0] Option.none rfl

/-- In loopGraph starting from the empty state, the batch loop never
returns for any amount of fuel: the no-op step never advances iteration
(0 stays below the bound 5) and the A -> A edge never yields an absent
successor. -/
theorem loopGraph_diverges :
    ∀ (fuel : Nat) (log : List LogEntry),
      runLoop loopGraph (Value.vint 5) fuel (some "A") s0 log =
        Option.none := by
  intro fuel
  induction fuel with
  | zero => intro log; rfl
  | succ k ih =>
    intro log
    rw [show runLoop loopGraph (Value.vint 5) (k + 1) (some "A") s0 log =
        runLoop loopGraph (Value.vint 5) k (some "A") s0
          (log ++ [⟨"A", 0⟩]) from rfl]
    exact ih (log ++ [⟨"A", 0⟩])

/-- C2 counterexample: loopGraph has only a no-op step and no conditional
edge at all (so the true branch is never taken), the starting iteration
is 0 and the bound is the positive default 5, yet the batch run does not
terminate: run_graph loops forever because the no-op step never advances
state.iteration, which is what the bound checks. -/
theorem claim2_cex : ¬ Terminates loopGraph s0 := by
  rintro ⟨fuel, r, h⟩
  rw [show run_graph loopGraph s0 fuel =
      runLoop loopGraph (Value.vint 5) fuel (some "A") s0 [] from rfl] at h
  rw [loopGraph_diverges fuel []] at h
  cases h

/-- A step whose result state already meets the bound makes the batch
loop return at once: the accumulated log plus the one new entry, unless
the edge resolution raised, in which case the failure propagates. -/
theorem runLoop_step_break (g : Graph) (m : Int) (fuel : Nat) (cur : String)
    (s s2 : DataState) (log : List LogEntry) (f : Step)
    (hn : g.node_map cur = some f) (hf : f s = Except.ok s2)
    (hge : m ≤ s2.iteration) :
    runLoop g (Value.vint m) (fuel + 1) (some cur) s log =
      some (match edgeNext g cur s2 with
            | Except.error m2 => Except.error (RunErr.condExc m2)
            | Except.ok _ => Except.ok (s2, log ++ [⟨cur, s2.anomaly_count⟩])) := by
  have hgev : pyGeV (Value.vint s2.iteration) (Value.vint m) = some true := by
    simp [pyGeV, pyLeV, hge]
  rcases he : edgeNext g cur s2 with m2 | nxt <;>
    simp [runLoop, hn, hf, he, hgev]

/-- C2 amended: with every step a no-op and no conditional edge ever
taking its true branch, the engine is only guaranteed to terminate via
the bound when the starting iteration value already meets or exceeds the
(integer, positive) bound — it then stops within a single step.  When
the starting iteration is below the bound, the no-op steps never advance
the iteration counter, the bound can never fire, and a cyclic graph
loops forever (see the counterexample). -/
theorem claim2_amended (g : Graph) (s : DataState) (m : Int)
    (hnoop : ∀ name f, g.node_map name = some f →
      ∀ st, f st = Except.ok st)
    (hcond : ∀ name chk t fl, g.edges name = some (Edge.cond chk t fl) →
      ∀ st, eval_condition chk st ≠ Except.ok true)
    (hb : effectiveBound s = Value.vint m) (hpos : 0 < m)
    (hge : m ≤ s.iteration) :
    ∃ r, run_graph g s 1 = some r := by
  unfold run_graph
  rw [hb]
  rcases hst : g.start_node with _ | c
  · exact ⟨Except.ok (s, []), rfl⟩
  · rcases hn : g.node_map c with _ | f
    · exact ⟨Except.ok (s, []), by simp [runLoop, hn]⟩
    · have hf : f s = Except.ok s := hnoop c f hn s
      exact ⟨_, runLoop_step_break g m 0 c s s [] f hn hf hge⟩

theorem claim2_witness :
    ∃ r, run_graph loopGraph ⟨0, 10, []⟩ 1 = some r :=
  claim2_amended loopGraph ⟨0, 10, []⟩ 5
    (by
      intro name f h st
      by_cases hA : name = "A"
      · subst hA
        simp [loopGraph] at h
        subst h
        rfl
      · simp [loopGraph, hA] at h)
    (by
      intro name chk t fl h st
      by_cases hA : name = "A"
      · subst hA
        simp [loopGraph] at h
      · simp [loopGraph, hA] at h)
    rfl (by decide) (by decide)

/-- Loop invariant for runs whose every step is the pure iteration
increment: entered below the bound with enough fuel, the loop returns,
and an ok result keeps iteration as the step count (log growth) and
never beyond the bound. -/
theorem runLoop_inc_aux (g : Graph) (m : Int)
    (hinc : ∀ name f, g.node_map name = some f →
      ∀ st, f st = Except.ok { st with iteration := st.iteration + 1 }) :
    ∀ (fuel : Nat) (cur : Option String) (s : DataState)
      (log : List LogEntry),
      s.iteration < m → m ≤ s.iteration + fuel →
      ∃ r, runLoop g (Value.vint m) fuel cur s log = some r ∧
        ∀ st lg, r = Except.ok (st, lg) →
          st.iteration + (log.length : Int) = s.iteration + lg.length ∧
          st.iteration ≤ m := by
  intro fuel
  induction fuel with
  | zero =>
    intro cur s log hlt hfu
    omega
  | succ k ih =>
    intro cur s log hlt hfu
    cases cur with
    | none =>
      refine ⟨Except.ok (s, log), rfl, ?_⟩
      intro st lg h
      injection h with hp
      injection hp with h1 h2
      subst h1
      subst h2
      exact ⟨rfl, hlt.le⟩
    | some c =>
      rcases hn : g.node_map c with _ | f
      · refine ⟨Except.ok (s, log), by simp [runLoop, hn], ?_⟩
        intro st lg h
        injection h with hp
        injection hp with h1 h2
        subst h1
        subst h2
        exact ⟨rfl, hlt.le⟩
      · have hf := hinc c f hn s
        rcases he : edgeNext g c { s with iteration := s.iteration + 1 }
          with m2 | nxt
        · refine ⟨Except.error (RunErr.condExc m2),
            by simp [runLoop, hn, hf, he], ?_⟩
          intro st lg h
          simp at h
        · by_cases hge : m ≤ s.iteration + 1
          · have hgev : pyGeV
                (Value.vint ({ s with iteration := s.iteration + 1} : DataState).iteration)
                (Value.vint m) = some true := by
              simp [pyGeV, pyLeV, hge]
            refine ⟨Except.ok ({ s with iteration := s.iteration + 1 },
              log ++ [⟨c, s.anomaly_count⟩]), ?_, ?_⟩
            · simp [runLoop, hn, hf, he, hgev]
            · intro st lg h
              injection h with hp
              injection hp with h1 h2
              subst h1
              subst h2
              constructor
              · simp [List.length_append]
                ring
              · simp
                omega
          · have hgev : pyGeV
                (Value.vint ({ s with iteration := s.iteration + 1} : DataState).iteration)
                (Value.vint m) = some false := by
              simp [pyGeV, pyLeV]
              omega
            have hlt2 : ({ s with iteration := s.iteration + 1 } : DataState).iteration < m := by
              simp
              omega
            have hfu2 : m ≤ ({ s with iteration := s.iteration + 1 } : DataState).iteration + k := by
              simp
              push_cast at hfu
              omega
            obtain ⟨r, hrun, hprop⟩ :=
              ih nxt { s with iteration := s.iteration + 1 }
                (log ++ [⟨c, s.anomaly_count⟩]) hlt2 hfu2
            refine ⟨r, ?_, ?_⟩
            · simpa [runLoop, hn, hf, he, hgev] using hrun
            · intro st lg h
              obtain ⟨h1, h2⟩ := hprop st lg h
              refine ⟨?_, h2⟩
              simp [List.length_append] at h1
              omega

/-- C5 counterexample: with every step the pure iteration increment but
max_iterations set to 0 in the metadata, the batch run still executes
one step (the loop body runs before the first bound check at runner.py
line 64), so the log has one entry — more than the max_iterations bound
of 0 the claim allows. -/
theorem claim5_cex :
    run_graph gInc ⟨0, 0, [("max_iterations", Value.vint 0)]⟩ 1 =
      some (Except.ok
        (⟨0, 1, [("max_iterations", Value.vint 0)]⟩, [⟨"A", 0⟩]))
    ∧ ¬ ((1 : Int) ≤ 0) :=
  ⟨rfl, by decide⟩

/-- C5 amended: when every step present in the registry is the pure
iteration increment, a batch run started at a nonnegative iteration with
a positive integer bound m returns within fuel m; whenever it returns a
result (rather than propagating a condition failure), the final
iteration counter equals the starting value plus the log length — the
log has exactly one entry per executed step — and the log length is at
most m.  The restrictions are forced: the loop executes a step before
the first bound check, so a bound of 0 still yields one step, and a
starting iteration below 0 allows up to bound-minus-start steps.
Nodes missing from the registry only truncate the run earlier, so no
presence hypothesis is needed. -/
theorem claim5 (g : Graph) (s : DataState) (m : Int)
    (hinc : ∀ name f, g.node_map name = some f →
      ∀ st, f st = Except.ok { st with iteration := st.iteration + 1 })
    (hb : effectiveBound s = Value.vint m) (hm : 1 ≤ m)
    (hi : 0 ≤ s.iteration) :
    ∃ r, run_graph g s m.toNat = some r ∧
      ∀ st lg, r = Except.ok (st, lg) →
        st.iteration = s.iteration + lg.length ∧ (lg.length : Int) ≤ m := by
  unfold run_graph
  rw [hb]
  by_cases hlt : s.iteration < m
  · have hfu : m ≤ s.iteration + (m.toNat : Int) := by omega
    obtain ⟨r, hrun, hprop⟩ :=
      runLoop_inc_aux g m hinc m.toNat g.start_node s [] hlt hfu
    refine ⟨r, hrun, ?_⟩
    intro st lg h
    obtain ⟨h1, h2⟩ := hprop st lg h
    simp at h1
    exact ⟨h1, by omega⟩
  · push_neg at hlt
    have hsplit : m.toNat = (m.toNat - 1) + 1 := by omega
    rw [hsplit]
    rcases hst : g.start_node with _ | c
    · refine ⟨Except.ok (s, []), rfl, ?_⟩
      intro st lg h
      injection h with hp
      injection hp with h1 h2
      subst h1
      subst h2
      constructor
      · simp
      · simp
        omega
    · rcases hn : g.node_map c with _ | f
      · refine ⟨Except.ok (s, []), by simp [runLoop, hn], ?_⟩
        intro st lg h
        injection h with hp
        injection hp with h1 h2
        subst h1
        subst h2
        exact ⟨by simp, by simp; omega⟩
      · have hf := hinc c f hn s
        have hbreak := runLoop_step_break g m (m.toNat - 1) c s
          { s with iteration := s.iteration + 1 } [] f hn hf (by simp; omega)
        rcases he : edgeNext g c { s with iteration := s.iteration + 1 }
          with m2 | nxt
        · rw [he] at hbreak
          refine ⟨Except.error (RunErr.condExc m2), hbreak, ?_⟩
          intro st lg h
          simp at h
        · rw [he] at hbreak
          refine ⟨Except.ok ({ s with iteration := s.iteration + 1 },
            [] ++ [⟨c, s.anomaly_count⟩]), hbreak, ?_⟩
          intro st lg h
          injection h with hp
          injection hp with h1 h2
          subst h1
          subst h2
          constructor
          · simp
          · simpa using hm

theorem claim5_witness :
    ∃ r, run_graph gInc s0 (Int.toNat 5) = some r ∧
      ∀ st lg, r = Except.ok (st, lg) →
        st.iteration = s0.iteration + lg.length ∧ (lg.length : Int) ≤ 5 :=
  claim5 gInc s0 5
    (by
      intro name f h st
      injection h with h
      subst h
      rfl)
    rfl (by decide) (by decide)

/-- The behavior claim C6 asserts for a state with no max_iterations key:
the effective bound in both modes is the literal default 5, both runners
are exactly their explicit-bound-5 counterparts, and the stop rule is
enforced identically in both modes — once a step result reaches
iteration >= 5, the batch loop returns at once and the streaming loop
yields the step event, then the info event, and ends. -/
def boundFiveBehavior (g : Graph) (s : DataState) (fuel : Nat) : Prop :=
  effectiveBound s = Value.vint 5
  ∧ run_graph g s fuel = runLoop g (Value.vint 5) fuel g.start_node s []
  ∧ stream_graph g s fuel = streamRun g (Value.vint 5) s fuel
  ∧ (∀ (fuel2 : Nat) (cur : String) (f : Step) (st st2 : DataState)
      (log : List LogEntry) (n : String),
      g.node_map cur = some f → f st = Except.ok st2 →
      g.edges cur = some (Edge.direct n) → 5 ≤ st2.iteration →
      runLoop g (Value.vint 5) (fuel2 + 1) (some cur) st log =
        some (Except.ok (st2, log ++ [⟨cur, st2.anomaly_count⟩]))
      ∧ streamLoop g (Value.vint 5) (fuel2 + 1) (some cur) st =
        some ([Event.step cur st2.anomaly_count st2,
               Event.info "Max iterations reached" st2.iteration],
              st2, Option.none))

/-- C6: if max_iterations is absent from the metadata bag, both run_graph
and stream_graph use the default bound 5 and enforce it identically (the
loop stops once state.iteration >= 5, in batch by returning and in
streaming by yielding the info event). -/
theorem claim6 (g : Graph) (s : DataState) (fuel : Nat)
    (h : mdGet s.metadata "max_iterations" = Option.none) :
    boundFiveBehavior g s fuel := by
  have hb : effectiveBound s = Value.vint 5 := by
    simp [effectiveBound, h]
  refine ⟨hb, ?_, ?_, ?_⟩
  · unfold run_graph
    rw [hb]
  · unfold stream_graph
    rw [hb]
  · intro fuel2 cur f st st2 log n hn hf he hge
    have hgev : pyGeV (Value.vint st2.iteration) (Value.vint 5) =
        some true := by
      simp [pyGeV, pyLeV, hge]
    constructor
    · simp [runLoop, edgeNext, hn, hf, he, hgev]
    · simp [streamLoop, edgeNext, hn, hf, he, hgev]

theorem claim6_witness : boundFiveBehavior gInc s0 3 :=
  claim6 gInc s0 3 rfl

end Runner
